import Mathlib

/-!
# Verification of the machinery worker core (src/v1/worker.go)

Shallow embedding of the message-processing and continuation engine of the
worker:

* `GoValue` models the Go values that cross the invocation boundary
  (`reflect.Value` contents), together with their `reflect.Type.String()`
  type tags.
* `TaskArg` and `TaskSignature` model the wire-level data model.  The
  `TaskSignature` type itself is declared outside the provided source file,
  so its layout is modelled from the spec (field names per the spec:
  `Name`, `Args`, `OnSuccess`, `OnError`, `Immutable`; lists handed off by
  value).
* `finalize` is translated from `Worker.finalize` (worker.go lines 86-117).
* `processMessage` is translated from `Worker.processMessage`
  (worker.go lines 55-83), with the external collaborators
  (`json.Unmarshal` outcome, the task registry, `ReflectArgs`) passed in or
  modelled from the spec, and the `reflect` standard-library semantics
  (`Value.Call` panics on arity/type mismatch, `Value.String()` on a
  non-string value yields `"<T Value>"`) embedded per the Go documentation.
* `finalizeHeap` is a store-passing version of `finalize` that makes slice
  allocation explicit, used to settle the aliasing/idempotence claims.
-/

set_option autoImplicit false

namespace Machinery

/-- A Go value crossing the invocation boundary.  The cases cover the value
shapes the worker core manipulates: basic JSON-able values, an `error`
value created by `errors.New` (carrying its message), and the invalid
`reflect.Value` produced by `reflect.ValueOf(nil)` (worker.go lines 71, 77). -/
inductive GoValue where
  | vint : Int → GoValue
  | vstr : String → GoValue
  | vbool : Bool → GoValue
  /-- An `error` value created by `errors.New msg`; its dynamic type is
  `*errors.errorString`. -/
  | verror : String → GoValue
  /-- The zero `reflect.Value`, i.e. `reflect.ValueOf(nil)`. -/
  | vinvalid : GoValue
  deriving DecidableEq, Repr

/-- The tag `reflect.TypeOf(v).String()` / `result.Type().String()` for the modelled
values: the native Go type tag of a value. -/
def typeName : GoValue → String
  | .vint _ => "int"
  | .vstr _ => "string"
  | .vbool _ => "bool"
  | .verror _ => "*errors.errorString"
  | .vinvalid => "invalid"

/-- The string `reflect.Value.String()` returns on a value whose Kind is not `String`:
`"<T Value>"` where `T` is the value's static type (Go standard library
documented behaviour).  `processMessage` applies it at worker.go line 77 to
`results[1]`, whose static type is the interface type `error`. -/
def reflectValueStringOfKind (staticType : String) : String :=
  "<" ++ staticType ++ " Value>"

/-- A typed argument on the wire: a (type-tag, value) pair
(spec section 3; the Go struct has fields `Type` and `Value`). -/
structure TaskArg where
  type : String
  value : GoValue
  deriving DecidableEq, Repr

/-- Modelled from the spec: the `TaskSignature` struct is declared outside
the provided source file.  Per the spec's data model it carries a handler
name, an ordered argument list, ordered success and error continuation
lists, and the `immutable` flag; continuation lists are held and handed off
by value. -/
inductive TaskSignature where
  | mk : String → List TaskArg → List TaskSignature → List TaskSignature →
      Bool → TaskSignature
  deriving Repr

/-- Handler name used for the registry lookup. -/
def TaskSignature.name : TaskSignature → String
  | .mk n _ _ _ _ => n

/-- Ordered argument list. -/
def TaskSignature.args : TaskSignature → List TaskArg
  | .mk _ a _ _ _ => a

/-- Ordered success continuations. -/
def TaskSignature.onSuccess : TaskSignature → List TaskSignature
  | .mk _ _ su _ _ => su

/-- Ordered error continuations. -/
def TaskSignature.onError : TaskSignature → List TaskSignature
  | .mk _ _ _ er _ => er

/-- The immutability flag. -/
def TaskSignature.immutable : TaskSignature → Bool
  | .mk _ _ _ _ im => im

/-- The assignment `t.Args = args` on a by-value copy of a continuation
template: the same signature with the argument list replaced. -/
def TaskSignature.setArgs : TaskSignature → List TaskArg → TaskSignature
  | .mk n _ su er im, a => .mk n a su er im

/-- The same signature with the immutability flag replaced (used to state
that a branch of `finalize` does not depend on the flag). -/
def TaskSignature.setImmutable : TaskSignature → Bool → TaskSignature
  | .mk n a su er _, b => .mk n a su er b

/-- The same signature with the success-continuation list replaced. -/
def TaskSignature.setOnSuccess :
    TaskSignature → List TaskSignature → TaskSignature
  | .mk n a _ er im, su => .mk n a su er im

/-- The same signature with the error-continuation list replaced. -/
def TaskSignature.setOnError :
    TaskSignature → List TaskSignature → TaskSignature
  | .mk n a su _ im, er => .mk n a su er im

/-- The zero value of `TaskSignature`, which `json.Unmarshal` leaves in
place when the envelope body fails to decode (worker.go line 56-57). -/
def zeroSig : TaskSignature := .mk "" [] [] [] false

/-- The `TaskArg` built for error callbacks at worker.go lines 93-96:
`Type` is `reflect.TypeOf(err).String()` (the error was built by
`errors.New`, so its dynamic type is `*errors.errorString`), and `Value` is
the error value itself. -/
def errorTaskArg (msg : String) : TaskArg :=
  { type := "*errors.errorString", value := .verror msg }

/-- The `TaskArg` built for success callbacks at worker.go lines 109-112:
`Type` is `result.Type().String()` and `Value` is `result.Interface()`. -/
def resultTaskArg (result : GoValue) : TaskArg :=
  { type := typeName result, value := result }

/-- Translation of `Worker.finalize` (worker.go lines 86-117), value level: given the
finished signature, the result `reflect.Value`, and the error (`none` for
Go `nil`), the list of continuation signatures passed to `app.SendTask`, in
publish order.  With a non-nil error, each `OnError` template is sent with
the error argument prepended; with a nil error, each `OnSuccess` template
is sent, with the result argument prepended unless `Immutable` is set. -/
def finalize (s : TaskSignature) (result : GoValue) (err : Option String) :
    List TaskSignature :=
  match err with
  | some msg =>
      s.onError.map (fun c => c.setArgs (errorTaskArg msg :: c.args))
  | none =>
      s.onSuccess.map (fun c =>
        if s.immutable = false then c.setArgs (resultTaskArg result :: c.args)
        else c)

/-- Modelled from the spec: a registered handler (the registry and task
registration live outside the provided source file).  Per the spec's data
model it is a callable with a fixed ordered parameter list of concrete
types, returning exactly one result value plus an error/no-error outcome
(`none` models a nil error). -/
structure Handler where
  params : List String
  run : List GoValue → GoValue × Option String

/-- Modelled from the spec: `ReflectArgs` (the Typed Argument Model's
decode, spec section 4.1) is declared outside the provided source file.
`decode(TaskArg) -> nativeValue | DecodeError`: fails when the declared
type is unknown to the runtime or the value cannot be read as that type;
never coerces. -/
def decodeArg (a : TaskArg) : Except String GoValue :=
  if a.type = "int" ∨ a.type = "string" ∨ a.type = "bool" then
    if typeName a.value = a.type then .ok a.value
    else .error ("cannot decode value as " ++ a.type)
  else .error ("unknown type " ++ a.type)

/-- Modelled from the spec: `ReflectArgs` over the whole argument list,
in order and fail-fast — a failure on any single argument aborts the whole
signature (spec section 4.1). -/
def reflectArgs : List TaskArg → Except String (List GoValue)
  | [] => .ok []
  | a :: rest =>
    match decodeArg a with
    | .error e => .error e
    | .ok v =>
      match reflectArgs rest with
      | .error e => .error e
      | .ok vs => .ok (v :: vs)

/-- The arity/type agreement that `reflect.Value.Call` checks internally:
the number of decoded arguments equals the handler's declared parameter
count and each argument's type tag equals the corresponding declared
parameter type.  When it fails, `Call` panics (Go standard library
behaviour); worker.go line 75 performs no check of its own before calling. -/
def callMatches (h : Handler) (vs : List GoValue) : Bool :=
  vs.length == h.params.length &&
    (List.zip vs h.params).all (fun p => typeName p.1 == p.2)

/-- Observable actions of one message processing run: invoking a
registered handler (via `reflectedTask.Call`) and publishing a
continuation signature (via `app.SendTask`). -/
inductive Event where
  | invoke : String → List GoValue → Event
  | publish : TaskSignature → Event
  deriving Repr

/-- Translation of `Worker.processMessage` (worker.go lines 55-83).  Inputs: the registry
lookup (`app.GetRegisteredTask`) as a function, and the outcome of
`json.Unmarshal` on the delivery body as `decoded` (`none` when the body
fails to decode — the code ignores the `Unmarshal` error, so in that case
`s` keeps its zero value).  Output: the ordered list of observable events,
paired with `true` when the run panics (which `reflect.Value.Call` does on
an arity or type mismatch, before any handler code runs).

Step by step: look the name up in the registry (absent: log and return);
decode the arguments (failure: `finalize` with the decode error and
`reflect.ValueOf(nil)` as result); call the handler; if the call's error
result is non-nil, `finalize` with `errors.New(results[1].String())` —
`results[1]` has interface kind, so `String()` yields `"<error Value>"`;
otherwise `finalize` with the result and the (nil) `err`. -/
def processMessage (registry : String → Option Handler)
    (decoded : Option TaskSignature) : List Event × Bool :=
  let s := decoded.getD zeroSig
  match registry s.name with
  | none => ([], false)
  | some task =>
    match reflectArgs s.args with
    | .error e =>
        ((finalize s .vinvalid (some e)).map Event.publish, false)
    | .ok vs =>
        if callMatches task vs then
          let r := task.run vs
          match r.2 with
          | some _ =>
              (Event.invoke s.name vs ::
                (finalize s .vinvalid
                  (some (reflectValueStringOfKind "error"))).map Event.publish,
               false)
          | none =>
              (Event.invoke s.name vs ::
                (finalize s r.1 none).map Event.publish,
               false)
        else
          ([], true)

/-! ## Store-passing model of `finalize`

To settle the claims about mutation and sharing of argument lists, the
same loop bodies are modelled once more with Go slice allocation explicit:
an argument list lives in a `Store` (allocation-ordered list of cells) and
a continuation template holds a reference (cell index) to its list.  The
`append([]TaskArg{x}, t.Args...)` expression at worker.go lines 93-96 and
109-112 starts from a fresh one-element slice literal, so it always
allocates a new cell; the assignment `t.Args = args` then updates only the
by-value loop copy of the template. -/

/-- A continuation template as the finalize loops see it: its name and a
reference into the store for its argument list. -/
structure ContRef where
  name : String
  argsRef : Nat
  deriving DecidableEq, Repr

/-- The allocation store: cell `i` holds the `i`-th allocated argument
list.  Allocation appends; nothing in `finalize` writes an existing cell. -/
abbrev Store : Type := List (List TaskArg)

/-- Read the argument list a reference points at. -/
def deref (σ : Store) (r : Nat) : List TaskArg :=
  List.getD σ r []

/-- Length of a store (number of allocated cells). -/
def Store.size (σ : Store) : Nat := List.length σ

/-- The error-callback loop of `finalize` (worker.go lines 91-99), store
level: for each template in order, allocate a fresh cell holding the
prepended list `first :: template's list`, and emit the template's name
with the fresh reference. -/
def errLoop (first : TaskArg) : List ContRef → Store → List ContRef × Store
  | [], σ => ([], σ)
  | c :: cs, σ =>
    let r := σ.size
    let σ1 : Store := σ ++ [first :: deref σ c.argsRef]
    let rest := errLoop first cs σ1
    (ContRef.mk c.name r :: rest.1, rest.2)

/-- The success-callback loop of `finalize` (worker.go lines 106-116),
store level: per iteration, when `imm` is false allocate a fresh cell with
the result prepended, otherwise pass the template through unchanged. -/
def successLoop (imm : Bool) (first : TaskArg) :
    List ContRef → Store → List ContRef × Store
  | [], σ => ([], σ)
  | c :: cs, σ =>
    if imm = false then
      let r := σ.size
      let σ1 : Store := σ ++ [first :: deref σ c.argsRef]
      let rest := successLoop imm first cs σ1
      (ContRef.mk c.name r :: rest.1, rest.2)
    else
      let rest := successLoop imm first cs σ
      (c :: rest.1, rest.2)

/-- A signature as `finalize` consumes it, store level: the immutable flag
and the two continuation template lists. -/
structure HeapSig where
  immutable : Bool
  onSuccess : List ContRef
  onError : List ContRef

/-- Translation of `Worker.finalize` at store level: returns the published continuation
references in publish order together with the store after the run. -/
def finalizeHeap (s : HeapSig) (result : GoValue) (err : Option String)
    (σ : Store) : List ContRef × Store :=
  match err with
  | some msg => errLoop (errorTaskArg msg) s.onError σ
  | none => successLoop s.immutable (resultTaskArg result) s.onSuccess σ

/-! ### Basic lemmas about the store -/

theorem deref_append_lt (σ : Store) (l : List TaskArg) (r : Nat)
    (h : r < σ.length) : deref (σ ++ [l]) r = deref σ r :=
  List.getD_append σ [l] [] r h

theorem deref_append_self (σ : Store) (l : List TaskArg) :
    deref (σ ++ [l]) σ.length = l := by
  unfold deref
  rw [List.getD_append_right σ [l] [] σ.length (le_refl _)]
  simp

theorem errLoop_nil (f : TaskArg) (σ : Store) : errLoop f [] σ = ([], σ) := rfl

theorem errLoop_cons (f : TaskArg) (c : ContRef) (cs : List ContRef)
    (σ : Store) :
    errLoop f (c :: cs) σ =
      (ContRef.mk c.name σ.length ::
          (errLoop f cs (σ ++ [f :: deref σ c.argsRef])).1,
        (errLoop f cs (σ ++ [f :: deref σ c.argsRef])).2) := rfl

theorem errLoop_snd_length (f : TaskArg) :
    ∀ (cs : List ContRef) (σ : Store),
      ((errLoop f cs σ).2).length = σ.length + cs.length
  | [], σ => by simp [errLoop_nil]
  | c :: cs, σ => by
    rw [errLoop_cons, errLoop_snd_length f cs]
    simp
    omega

theorem errLoop_deref_lt (f : TaskArg) :
    ∀ (cs : List ContRef) (σ : Store) (r : Nat), r < σ.length →
      deref (errLoop f cs σ).2 r = deref σ r
  | [], _, _, _ => rfl
  | c :: cs, σ, r, h => by
    rw [errLoop_cons]
    rw [errLoop_deref_lt f cs _ r (by simp; omega)]
    exact deref_append_lt σ _ r h

theorem errLoop_fst_refs (f : TaskArg) :
    ∀ (cs : List ContRef) (σ : Store),
      ((errLoop f cs σ).1).map ContRef.argsRef =
        List.range' σ.length cs.length
  | [], σ => by simp [errLoop_nil]
  | c :: cs, σ => by
    rw [errLoop_cons]
    simp only [List.map_cons]
    rw [errLoop_fst_refs f cs]
    simp [List.range'_succ]

theorem errLoop_out (f : TaskArg) :
    ∀ (cs : List ContRef) (σ : Store),
      (∀ x ∈ cs, x.argsRef < σ.length) →
      ((errLoop f cs σ).1).map
          (fun x => (x.name, deref (errLoop f cs σ).2 x.argsRef)) =
        cs.map (fun x => (x.name, f :: deref σ x.argsRef))
  | [], _, _ => rfl
  | c :: cs, σ, h => by
    have hc : c.argsRef < σ.length := h c (List.mem_cons_self c cs)
    have hcs : ∀ x ∈ cs, x.argsRef < σ.length :=
      fun x hx => h x (List.mem_cons_of_mem c hx)
    rw [errLoop_cons]
    simp only [List.map_cons]
    refine congrArg₂ List.cons ?_ ?_
    · have h1 : σ.length < (σ ++ [f :: deref σ c.argsRef]).length := by simp
      rw [errLoop_deref_lt f cs _ σ.length h1, deref_append_self]
    · rw [errLoop_out f cs _
        (fun x hx => lt_of_lt_of_le (hcs x hx) (by simp))]
      exact List.map_congr_left
        (fun x hx => by rw [deref_append_lt σ _ _ (hcs x hx)])

theorem successLoop_false (f : TaskArg) :
    ∀ (cs : List ContRef) (σ : Store),
      successLoop false f cs σ = errLoop f cs σ
  | [], _ => rfl
  | c :: cs, σ => by
    show (ContRef.mk c.name σ.length ::
        (successLoop false f cs (σ ++ [f :: deref σ c.argsRef])).1,
      (successLoop false f cs (σ ++ [f :: deref σ c.argsRef])).2) = _
    rw [errLoop_cons, successLoop_false f cs]

theorem successLoop_true (f : TaskArg) :
    ∀ (cs : List ContRef) (σ : Store),
      successLoop true f cs σ = (cs, σ)
  | [], _ => rfl
  | c :: cs, σ => by
    show (c :: (successLoop true f cs σ).1, (successLoop true f cs σ).2) = _
    rw [successLoop_true f cs]

theorem mem_errLoop_ref_bounds (f : TaskArg) (cs : List ContRef) (σ : Store)
    (x : ContRef) (hx : x ∈ (errLoop f cs σ).1) :
    σ.length ≤ x.argsRef ∧ x.argsRef < σ.length + cs.length := by
  have hm : x.argsRef ∈ ((errLoop f cs σ).1).map ContRef.argsRef :=
    List.mem_map_of_mem ContRef.argsRef hx
  rw [errLoop_fst_refs] at hm
  have := List.mem_range'.mp hm
  omega

/-- Running the error-callback loop twice in sequence from the same
templates: the two emitted batches dereference to the same lists under the
final store, no pre-existing cell is ever written, and the freshly
allocated cells of the two runs are disjoint. -/
theorem errLoop_twice (f : TaskArg) (cs : List ContRef) (σ0 : Store)
    (h : ∀ x ∈ cs, x.argsRef < σ0.length) :
    (((errLoop f cs σ0).1).map
        (fun x => (x.name, deref (errLoop f cs (errLoop f cs σ0).2).2 x.argsRef)) =
      ((errLoop f cs (errLoop f cs σ0).2).1).map
        (fun x => (x.name, deref (errLoop f cs (errLoop f cs σ0).2).2 x.argsRef)))
    ∧ (∀ r, r < σ0.length →
        deref (errLoop f cs (errLoop f cs σ0).2).2 r = deref σ0 r)
    ∧ (∀ c1 ∈ (errLoop f cs σ0).1, ∀ c2 ∈ (errLoop f cs (errLoop f cs σ0).2).1,
        c1.argsRef ≠ c2.argsRef) := by
  have hlen1 : ((errLoop f cs σ0).2).length = σ0.length + cs.length :=
    errLoop_snd_length f cs σ0
  refine ⟨?_, ?_, ?_⟩
  · have hL :
        ((errLoop f cs σ0).1).map
            (fun x => (x.name, deref (errLoop f cs (errLoop f cs σ0).2).2 x.argsRef)) =
          ((errLoop f cs σ0).1).map
            (fun x => (x.name, deref (errLoop f cs σ0).2 x.argsRef)) := by
      refine List.map_congr_left (fun x hx => ?_)
      have hb := mem_errLoop_ref_bounds f cs σ0 x hx
      rw [errLoop_deref_lt f cs _ x.argsRef (by omega)]
    rw [hL, errLoop_out f cs σ0 h]
    rw [errLoop_out f cs _ (fun x hx => by have := h x hx; omega)]
    refine List.map_congr_left (fun x hx => ?_)
    rw [errLoop_deref_lt f cs σ0 x.argsRef (h x hx)]
  · intro r hr
    rw [errLoop_deref_lt f cs _ r (by omega), errLoop_deref_lt f cs σ0 r hr]
  · intro c1 h1 c2 h2
    have hb1 := mem_errLoop_ref_bounds f cs σ0 c1 h1
    have hb2 := mem_errLoop_ref_bounds f cs _ c2 h2
    omega

/-! ### Concrete fixtures (from the spec's end-to-end scenarios) -/

/-- Scenario A/B continuation: `{name:"log", args:[]}`. -/
def cLog : TaskSignature := .mk "log" [] [] [] false

/-- Scenario A origin signature: `{name:"add", args:[{int,2},{int,3}],
onSuccess:[log], immutable:false}`. -/
def sAddMut : TaskSignature :=
  .mk "add" [TaskArg.mk "int" (.vint 2), TaskArg.mk "int" (.vint 3)]
    [cLog] [] false

/-- Scenario B origin signature: as scenario A but `immutable:true`. -/
def sAddImm : TaskSignature :=
  .mk "add" [TaskArg.mk "int" (.vint 2), TaskArg.mk "int" (.vint 3)]
    [cLog] [] true

/-- The `add` handler: two `int` parameters, integer sum, nil error. -/
def addHandler : Handler where
  params := ["int", "int"]
  run := fun vs =>
    match vs with
    | [GoValue.vint a, GoValue.vint b] => (GoValue.vint (a + b), none)
    | _ => (GoValue.vinvalid, none)

/-- A registry holding exactly the `add` handler. -/
def regAdd : String → Option Handler :=
  fun n => if n = "add" then some addHandler else none

/-- Scenario D continuation: `{name:"alert", args:["pager"]}`. -/
def cAlert : TaskSignature :=
  .mk "alert" [TaskArg.mk "string" (.vstr "pager")] [] [] false

/-- Scenario D handler: no parameters, always fails with "disk full". -/
def diskHandler : Handler where
  params := []
  run := fun _ => (GoValue.vint 0, some "disk full")

/-- Scenario D origin signature: no args, `onError:[alert]`. -/
def sDisk : TaskSignature := .mk "disk" [] [] [cAlert] false

/-- A registry holding exactly the `disk` handler. -/
def regDisk : String → Option Handler :=
  fun n => if n = "disk" then some diskHandler else none

/-- A registry with no entries at all. -/
def regNone : String → Option Handler := fun _ => none

/-- Scenario C origin signature: unregistered name `"ghost"`. -/
def sGhost : TaskSignature := .mk "ghost" [] [] [] false

/-! ### Claim theorems -/

/-- C1: for a `TaskSignature` with `immutable = false` and non-empty
`onSuccess`, when the handler succeeds with result `r`, the published
success continuations are exactly the declared continuations, in list
order and one publish each, with a new first argument prepended that wraps
`r` under `r`'s native type-tag, the remaining arguments being the
declared ones in their original order. -/
theorem finalize_success_mutable_prepends (s : TaskSignature) (r : GoValue)
    (himm : s.immutable = false) (hne : s.onSuccess ≠ []) :
    finalize s r none =
      s.onSuccess.map
        (fun c => c.setArgs (TaskArg.mk (typeName r) r :: c.args)) := by
  have _ := hne
  simp [finalize, himm, resultTaskArg]

/-- Witness for C1 at scenario A: `add(2,3) = 5` with `onSuccess:[log]`
and `immutable:false` publishes exactly `{name:"log", args:[{int,5}]}`. -/
theorem finalize_success_mutable_prepends_witness :
    sAddMut.immutable = false ∧ sAddMut.onSuccess ≠ [] ∧
      finalize sAddMut (GoValue.vint 5) none =
        [TaskSignature.mk "log" [TaskArg.mk "int" (GoValue.vint 5)] [] [] false] :=
  ⟨rfl, fun h => List.noConfusion h,
    finalize_success_mutable_prepends sAddMut (GoValue.vint 5) rfl
      (fun h => List.noConfusion h)⟩

/-- C2: for a `TaskSignature` with `immutable = true`, when the handler
succeeds every published success continuation is exactly the declared
continuation — in particular its argument list equals the declared one,
with no result argument prepended. -/
theorem finalize_success_immutable_no_prepend (s : TaskSignature)
    (r : GoValue) (himm : s.immutable = true) :
    finalize s r none = s.onSuccess := by
  simp [finalize, himm]

/-- Witness for C2 at scenario B: `add(2,3) = 5` with `immutable:true`
publishes `{name:"log", args:[]}` unchanged. -/
theorem finalize_success_immutable_no_prepend_witness :
    sAddImm.immutable = true ∧
      finalize sAddImm (GoValue.vint 5) none = [cLog] :=
  ⟨rfl, finalize_success_immutable_no_prepend sAddImm (GoValue.vint 5) rfl⟩

/-- C3: on a failure outcome, the published continuations are exactly the
`onError` continuations, in list order and one publish each, with the
error argument prepended first; the `immutable` flag has no effect on this
branch (second conjunct), and an empty `onError` publishes nothing (the
map of the empty list). -/
theorem finalize_error_prepends (s : TaskSignature) (r : GoValue)
    (e : String) :
    finalize s r (some e) =
      s.onError.map (fun c => c.setArgs (errorTaskArg e :: c.args))
    ∧ ∀ b : Bool,
        finalize (s.setImmutable b) r (some e) = finalize s r (some e) := by
  refine ⟨rfl, fun b => ?_⟩
  cases s
  rfl

/-- C10: exactly one continuation branch runs in `finalize`: with a
non-nil error the output does not depend on `onSuccess` at all and has one
entry per `onError` continuation; with a nil error the output does not
depend on `onError` at all and has one entry per `onSuccess`
continuation. -/
theorem finalize_exactly_one_branch (s : TaskSignature) (r : GoValue)
    (e : String) (xs ys : List TaskSignature) :
    finalize (s.setOnSuccess xs) r (some e) = finalize s r (some e)
    ∧ finalize (s.setOnError ys) r none = finalize s r none
    ∧ (finalize s r (some e)).length = s.onError.length
    ∧ (finalize s r none).length = s.onSuccess.length := by
  cases s
  refine ⟨rfl, rfl, ?_, ?_⟩ <;> simp [finalize]

/-- C5: a message whose decoded `TaskSignature` name is not in the
registry produces no event at all: no handler invocation and no publish
call (the task is only logged and dropped). -/
theorem processMessage_unregistered (registry : String → Option Handler)
    (s : TaskSignature) (h : registry s.name = none) :
    processMessage registry (some s) = ([], false) := by
  simp [processMessage, h]

/-- Witness for C5 at scenario C: the `"ghost"` signature against an empty
registry yields zero events. -/
theorem processMessage_unregistered_witness :
    regNone sGhost.name = none ∧
      processMessage regNone (some sGhost) = ([], false) :=
  ⟨rfl, processMessage_unregistered regNone sGhost rfl⟩

/-- C4 (code bug): scenario D evaluated on the code.  The handler fails
with "disk full", yet the published `alert` continuation's first argument
carries the message `"<error Value>"`, not `"disk full"`: worker.go line
77 builds the error as `errors.New(results[1].String())`, and
`reflect.Value.String()` on the interface-kind error result returns the
placeholder `"<error Value>"`, discarding the handler's message.  The
`Value` field holds that error object, not the stringified message. -/
theorem processMessage_error_message_lost :
    processMessage regDisk (some sDisk) =
      ([Event.invoke "disk" [],
        Event.publish (TaskSignature.mk "alert"
          [TaskArg.mk "*errors.errorString" (GoValue.verror "<error Value>"),
            TaskArg.mk "string" (GoValue.vstr "pager")] [] [] false)],
        false)
    ∧ reflectValueStringOfKind "error" ≠ "disk full" :=
  ⟨rfl, by decide⟩

/-- A signature that resolves to the two-parameter `add` handler but
carries only one argument. -/
def sArity : TaskSignature :=
  .mk "add" [TaskArg.mk "int" (.vint 2)] [] [cAlert] false

/-- C7 (code bug): worker.go performs no arity/type comparison before
`reflectedTask.Call` (line 75), so a signature with too few arguments for
its handler makes the call itself panic: the run crashes (flag `true`)
with no handler invocation, no `ArgumentMismatch` error, and no error
continuation published even though `onError` is non-empty. -/
theorem processMessage_arity_mismatch_panics :
    processMessage regAdd (some sArity) = ([], true) := rfl

/-- A handler registered under the empty name — the name the zero-value
`TaskSignature` carries. -/
def emptyNameHandler : Handler where
  params := []
  run := fun _ => (GoValue.vint 7, none)

/-- A registry holding exactly the empty-name handler. -/
def regEmptyName : String → Option Handler :=
  fun n => if n = "" then some emptyNameHandler else none

/-- C9 (code bug): worker.go line 57 ignores the `json.Unmarshal` error,
so an envelope that fails to decode (`decoded = none`) is not dropped:
processing continues with the zero-value signature, its empty name is
looked up in the registry, and a handler registered under `""` is
invoked.  The decode failure itself is never logged. -/
theorem processMessage_decode_failure_still_processes :
    processMessage regEmptyName none = ([Event.invoke "" []], false) := rfl

/-- A one-parameter handler used for the malformed-argument scenario. -/
def halfHandler : Handler where
  params := ["int"]
  run := fun _ => (GoValue.vint 0, none)

/-- A registry holding exactly the `half` handler. -/
def regHalf : String → Option Handler :=
  fun n => if n = "half" then some halfHandler else none

/-- An `alert` continuation with no declared arguments. -/
def cAlertPlain : TaskSignature := .mk "alert" [] [] [] false

/-- A signature whose single `TaskArg` declares type `int` but carries a
string value, so its declared type cannot decode its value. -/
def sBadArg : TaskSignature :=
  .mk "half" [TaskArg.mk "int" (.vstr "oops")] [] [cAlertPlain] false

/-- Counterexample to C6: a registered signature with an undecodable
`TaskArg` and a non-empty `onError` yields one publish call, not zero —
worker.go lines 70-72 route the `ReflectArgs` error into `finalize`, so
the error continuation fires instead of the task being dropped. -/
theorem processMessage_bad_arg_publishes :
    (processMessage regHalf (some sBadArg)).1 =
      [Event.publish (TaskSignature.mk "alert"
        [TaskArg.mk "*errors.errorString"
          (GoValue.verror "cannot decode value as int")] [] [] false)]
    ∧ (processMessage regHalf (some sBadArg)).1.length ≠ 0 :=
  ⟨rfl, by decide⟩

/-- C6 amended: a registered signature with an undecodable `TaskArg`
performs zero handler invocations, but is not dropped: it is routed
through the failure branch, publishing exactly its `onError`
continuations (in order, error argument prepended) and nothing else —
zero publish calls only when `onError` is empty. -/
theorem processMessage_bad_arg_routes_failure
    (registry : String → Option Handler) (s : TaskSignature) (e : String)
    (h : Handler) (hreg : registry s.name = some h)
    (hdec : reflectArgs s.args = .error e) :
    processMessage registry (some s) =
      ((s.onError.map
          (fun c => c.setArgs (errorTaskArg e :: c.args))).map Event.publish,
        false) := by
  simp [processMessage, hreg, hdec, finalize]

/-- Witness for the amended C6: the concrete bad-argument signature
publishes exactly its one error continuation and invokes nothing. -/
theorem processMessage_bad_arg_routes_failure_witness :
    regHalf sBadArg.name = some halfHandler ∧
      reflectArgs sBadArg.args = .error "cannot decode value as int" ∧
      processMessage regHalf (some sBadArg) =
        ([Event.publish (TaskSignature.mk "alert"
          [TaskArg.mk "*errors.errorString"
            (GoValue.verror "cannot decode value as int")] [] [] false)],
          false) :=
  ⟨rfl, rfl,
    processMessage_bad_arg_routes_failure regHalf sBadArg
      "cannot decode value as int" halfHandler rfl rfl⟩

/-- C8: the continuation-building loops never mutate the input templates
and two successive runs are independent.  In the store-passing model:
(1) the two runs' published batches dereference, under the final store,
to structurally identical sequences; (2) every pre-existing cell — in
particular every template argument list — is unchanged after both runs;
(3) whenever a prepend happens (failure outcome, or success with
`immutable = false`), the argument cells of the two runs' published
signatures are pairwise distinct: no shared argument lists. -/
theorem finalizeHeap_idempotent_no_sharing (s : HeapSig) (res : GoValue)
    (err : Option String) (σ0 : Store)
    (hE : ∀ x ∈ s.onError, x.argsRef < σ0.length)
    (hS : ∀ x ∈ s.onSuccess, x.argsRef < σ0.length) :
    (((finalizeHeap s res err σ0).1).map
        (fun x => (x.name,
          deref (finalizeHeap s res err (finalizeHeap s res err σ0).2).2
            x.argsRef)) =
      ((finalizeHeap s res err (finalizeHeap s res err σ0).2).1).map
        (fun x => (x.name,
          deref (finalizeHeap s res err (finalizeHeap s res err σ0).2).2
            x.argsRef)))
    ∧ (∀ r, r < σ0.length →
        deref (finalizeHeap s res err (finalizeHeap s res err σ0).2).2 r =
          deref σ0 r)
    ∧ ((err = none → s.immutable = false) →
        ∀ c1 ∈ (finalizeHeap s res err σ0).1,
        ∀ c2 ∈ (finalizeHeap s res err (finalizeHeap s res err σ0).2).1,
          c1.argsRef ≠ c2.argsRef) := by
  match err with
  | some msg =>
      simp only [finalizeHeap]
      have H := errLoop_twice (errorTaskArg msg) s.onError σ0 hE
      exact ⟨H.1, H.2.1, fun _ => H.2.2⟩
  | none =>
      simp only [finalizeHeap]
      cases him : s.immutable with
      | false =>
          simp only [successLoop_false]
          have H := errLoop_twice (resultTaskArg res) s.onSuccess σ0 hS
          exact ⟨H.1, H.2.1, fun _ => H.2.2⟩
      | true =>
          refine ⟨?_, ?_, ?_⟩
          · simp only [successLoop_true]
          · intro r _
            simp only [successLoop_true]
          · intro himp
            exact absurd (himp trivial) (by decide)

/-- The heap-level signature for the C8 witness: `immutable = false`, no
success continuations, one error continuation whose argument list lives in
cell 0. -/
def hs8 : HeapSig where
  immutable := false
  onSuccess := []
  onError := [ContRef.mk "alert" 0]

/-- The initial store for the C8 witness: one template argument list. -/
def store8 : Store := [[TaskArg.mk "string" (.vstr "pager")]]

/-- Witness for C8 at a concrete failure outcome. -/
theorem finalizeHeap_idempotent_no_sharing_witness :
    (∀ x ∈ hs8.onError, x.argsRef < store8.length) ∧
    (∀ x ∈ hs8.onSuccess, x.argsRef < store8.length) ∧
    ((((finalizeHeap hs8 (GoValue.vint 0) (some "disk full") store8).1).map
        (fun x => (x.name,
          deref (finalizeHeap hs8 (GoValue.vint 0) (some "disk full")
            (finalizeHeap hs8 (GoValue.vint 0) (some "disk full")
              store8).2).2 x.argsRef)) =
      ((finalizeHeap hs8 (GoValue.vint 0) (some "disk full")
          (finalizeHeap hs8 (GoValue.vint 0) (some "disk full")
            store8).2).1).map
        (fun x => (x.name,
          deref (finalizeHeap hs8 (GoValue.vint 0) (some "disk full")
            (finalizeHeap hs8 (GoValue.vint 0) (some "disk full")
              store8).2).2 x.argsRef)))
    ∧ (∀ r, r < store8.length →
        deref (finalizeHeap hs8 (GoValue.vint 0) (some "disk full")
          (finalizeHeap hs8 (GoValue.vint 0) (some "disk full")
            store8).2).2 r = deref store8 r)
    ∧ ((some "disk full" = none → hs8.immutable = false) →
        ∀ c1 ∈ (finalizeHeap hs8 (GoValue.vint 0) (some "disk full")
          store8).1,
        ∀ c2 ∈ (finalizeHeap hs8 (GoValue.vint 0) (some "disk full")
          (finalizeHeap hs8 (GoValue.vint 0) (some "disk full")
            store8).2).1,
          c1.argsRef ≠ c2.argsRef)) :=
  ⟨by decide, by decide,
    finalizeHeap_idempotent_no_sharing hs8 (GoValue.vint 0)
      (some "disk full") store8 (by decide) (by decide)⟩

end Machinery
